import Mathlib

/-!
Verification development for the TerminalChat repository (a TCP chat relay).

The definitions below are a shallow embedding of the Rust sources:
  * `message.rs`  — the `Message` enum, its constructors, and the serde_json
    wire codec (`to_json` / `from_json`);
  * `server.rs`   — `handle_client`: the registry (a `HashMap` behind a
    mutex, modelled as an association list), the inbound read loop, and the
    outbound broadcast-forwarding loop;
  * `client.rs` / `ui.rs` — the client outbound writer task and the UI's
    submit paths.

Machine integers (`u64`, `u32`, `u8`) are modelled as `Nat`; none of the
embedded operations can overflow them on the values the program constructs,
and no claim depends on wrap-around. `SystemTime::now()` is modelled by
passing the creation-time value explicitly. Byte vectors are `List Nat`.
-/

namespace TerminalChat

/-! ### Data model (`message.rs`)

`SystemTime` serializes through serde as a two-field struct with
`secs_since_epoch` and `nanos_since_epoch`. -/

/-- Model of `std::time::SystemTime` as seconds/nanoseconds since the epoch. -/
structure SystemTime where
  secs : Nat
  nanos : Nat
deriving DecidableEq, Repr

/-- The `Message` enum of `message.rs` (the spec's Envelope):
`Text`, `File`, `UserJoined`, `UserLeft`, `System`. -/
inductive Message where
  | Text (username content : String) (timestamp : SystemTime)
  | File (username filename : String) (size : Nat) (data : List Nat) (timestamp : SystemTime)
  | UserJoined (username : String) (timestamp : SystemTime)
  | UserLeft (username : String) (timestamp : SystemTime)
  | System (content : String) (timestamp : SystemTime)
deriving DecidableEq, Repr

/-- `Message::new_text`; `now` is the value of `SystemTime::now()`. -/
def Message.new_text (username content : String) (now : SystemTime) : Message :=
  .Text username content now

/-- `Message::new_file`: `size` is computed as `data.len()`. -/
def Message.new_file (username filename : String) (data : List Nat) (now : SystemTime) : Message :=
  .File username filename data.length data now

/-- `Message::new_user_joined`. -/
def Message.new_user_joined (username : String) (now : SystemTime) : Message :=
  .UserJoined username now

/-- `Message::new_user_left`. -/
def Message.new_user_left (username : String) (now : SystemTime) : Message :=
  .UserLeft username now

/-- `Message::new_system`. -/
def Message.new_system (content : String) (now : SystemTime) : Message :=
  .System content now

/-! ### Wire codec: serialization (`Message::to_json`)

`serde_json::to_string` of the derived `Serialize` produces the compact,
externally tagged form, e.g.
`\x7b"Text":\x7b"username":"u","content":"c","timestamp":\x7b"secs_since_epoch":1,"nanos_since_epoch":2\x7d\x7d\x7d`.
Strings are escaped exactly as serde_json does: `"` and `\` get a backslash,
the control characters BS, TAB, LF, FF, CR get their short escapes, all other
control characters below 0x20 become `\u00XX` with lowercase hex. -/

/-- Lowercase hex digit, also used for decimal digits (values below 10). -/
def hexDigit (n : Nat) : Char :=
  if n < 10 then Char.ofNat (48 + n) else Char.ofNat (87 + n)

/-- serde_json's escaping of a single character inside a JSON string. -/
def escChar (c : Char) : List Char :=
  if c = '"' then ['\\', '"']
  else if c = '\\' then ['\\', '\\']
  else if c = '\x08' then ['\\', 'b']
  else if c = '\t' then ['\\', 't']
  else if c = '\n' then ['\\', 'n']
  else if c = '\x0c' then ['\\', 'f']
  else if c = '\r' then ['\\', 'r']
  else if c.toNat < 32 then
    ['\\', 'u', '0', '0', hexDigit (c.toNat / 16), hexDigit (c.toNat % 16)]
  else [c]

/-- Escape the body of a JSON string. -/
def escape (s : List Char) : List Char :=
  s.flatMap escChar

/-- Render a JSON string literal (quotes plus escaped body). -/
def renderStr (s : List Char) : List Char :=
  '"' :: (escape s ++ ['"'])

/-- Base-10 digits, least significant first, with a fuel argument so the
recursion is structural (any fuel at least the value itself is enough). -/
def natDigitsF : Nat → Nat → List Nat
  | 0, _ => []
  | f + 1, n => if n = 0 then [] else n % 10 :: natDigitsF f (n / 10)

/-- Render a natural number in decimal (serde_json integer output). -/
def natRender (n : Nat) : List Char :=
  if n = 0 then ['0'] else (natDigitsF n n).reverse.map hexDigit

/-- Render a JSON array of numbers (serde output for `Vec<u8>`). -/
def renderArr (l : List Nat) : List Char :=
  match l with
  | [] => ['[', ']']
  | x :: xs => ('[' :: natRender x) ++ (xs.flatMap (fun n => ',' :: natRender n)) ++ [']']

/-- Render one `"key":number` member. -/
def renderNatField (k : String) (n : Nat) : List Char :=
  renderStr k.data ++ (':' :: natRender n)

/-- Render an object all of whose member values are numbers
(the serde form of `SystemTime`). -/
def renderNatObj (l : List (String × Nat)) : List Char :=
  match l with
  | [] => ['\x7b', '\x7d']
  | (k, n) :: xs =>
      ('\x7b' :: renderNatField k n) ++ (xs.flatMap (fun p => ',' :: renderNatField p.1 p.2))
        ++ ['\x7d']

/-- The JSON values that occur as members of a serialized `Message` variant:
integers, strings, byte arrays, and the `SystemTime` object. -/
inductive FVal where
  | fnum (n : Nat)
  | fstr (s : String)
  | farr (l : List Nat)
  | fobj (l : List (String × Nat))
deriving DecidableEq, Repr

/-- Render a member value. -/
def renderFVal : FVal → List Char
  | .fnum n => natRender n
  | .fstr s => renderStr s.data
  | .farr l => renderArr l
  | .fobj l => renderNatObj l

/-- Render one `"key":value` member. -/
def renderField (k : String) (v : FVal) : List Char :=
  renderStr k.data ++ (':' :: renderFVal v)

/-- Render an object of members. -/
def renderFields (l : List (String × FVal)) : List Char :=
  match l with
  | [] => ['\x7b', '\x7d']
  | (k, v) :: xs =>
      ('\x7b' :: renderField k v) ++ (xs.flatMap (fun p => ',' :: renderField p.1 p.2))
        ++ ['\x7d']

/-- The serde fields of a `SystemTime` value, in serialization order. -/
def timeFields (t : SystemTime) : List (String × Nat) :=
  [("secs_since_epoch", t.secs), ("nanos_since_epoch", t.nanos)]

/-- External tag of each variant (the enum variant name). -/
def Message.tag : Message → String
  | .Text .. => "Text"
  | .File .. => "File"
  | .UserJoined .. => "UserJoined"
  | .UserLeft .. => "UserLeft"
  | .System .. => "System"

/-- The members of each variant's payload object, in field declaration order
(the order serde_json writes them). -/
def Message.fields : Message → List (String × FVal)
  | .Text u c t =>
      [("username", .fstr u), ("content", .fstr c), ("timestamp", .fobj (timeFields t))]
  | .File u f sz d t =>
      [("username", .fstr u), ("filename", .fstr f), ("size", .fnum sz),
       ("data", .farr d), ("timestamp", .fobj (timeFields t))]
  | .UserJoined u t =>
      [("username", .fstr u), ("timestamp", .fobj (timeFields t))]
  | .UserLeft u t =>
      [("username", .fstr u), ("timestamp", .fobj (timeFields t))]
  | .System c t =>
      [("content", .fstr c), ("timestamp", .fobj (timeFields t))]

/-- `Message::to_json` (`serde_json::to_string`). Serialization of this type
cannot fail, so the `Result` is modelled as the plain string. -/
def Message.to_json (m : Message) : String :=
  ⟨('\x7b' :: renderStr m.tag.data) ++ (':' :: renderFields m.fields) ++ ['\x7d']⟩

/-! ### Wire codec: deserialization (`Message::from_json`)

`serde_json::from_str` is modelled as a recursive-descent parser over the
character list, specialized to the (compact) grammar serde_json emits for
this enum: an externally tagged object whose member values are integers,
strings, integer arrays, or the two-integer `SystemTime` object.  Inputs
outside that grammar are rejected (`none`), matching serde's `Err`.  The
derived deserializer accepts the fields of a variant in any order, so the
parsed members are consulted by key lookup, not positionally.  The
list-shaped productions use an explicit fuel counter (initialized to the
input length, an upper bound on the number of elements) to make the
recursion structural. -/

/-- Decode one short escape character (`\"`, `\\`, `\/`, `\b`, `\f`, `\n`,
`\r`, `\t`). -/
def unescChar (c : Char) : Option Char :=
  if c = '"' then some '"'
  else if c = '\\' then some '\\'
  else if c = '/' then some '/'
  else if c = 'b' then some '\x08'
  else if c = 'f' then some '\x0c'
  else if c = 'n' then some '\n'
  else if c = 'r' then some '\r'
  else if c = 't' then some '\t'
  else none

/-- Value of one hex digit (either case accepted, as in JSON). -/
def hexVal (c : Char) : Option Nat :=
  if '0' ≤ c ∧ c ≤ '9' then some (c.toNat - 48)
  else if 'a' ≤ c ∧ c ≤ 'f' then some (c.toNat - 87)
  else if 'A' ≤ c ∧ c ≤ 'F' then some (c.toNat - 55)
  else none

/-- Build the character with the given code point, rejecting surrogates and
out-of-range values (serde errors on a lone surrogate escape). -/
def mkCharOfNat (n : Nat) : Option Char :=
  if n < 0xd800 ∨ (0xdfff < n ∧ n < 0x110000) then some (Char.ofNat n) else none

/-- Parse the body of a JSON string after the opening quote; returns the
unescaped contents and the remainder after the closing quote. -/
def parseStrAux : List Char → Option (List Char × List Char)
  | [] => none
  | c :: rest =>
    if c = '"' then some ([], rest)
    else if c = '\\' then
      match rest with
      | [] => none
      | e :: rest2 =>
        if e = 'u' then
          match rest2 with
          | h1 :: h2 :: h3 :: h4 :: rest3 =>
            match hexVal h1, hexVal h2, hexVal h3, hexVal h4 with
            | some a, some b, some c2, some d =>
              match mkCharOfNat (4096 * a + 256 * b + 16 * c2 + d) with
              | some ch => (parseStrAux rest3).map (fun p => (ch :: p.1, p.2))
              | none => none
            | _, _, _, _ => none
          | _ => none
        else
          match unescChar e with
          | some ch => (parseStrAux rest2).map (fun p => (ch :: p.1, p.2))
          | none => none
    else (parseStrAux rest).map (fun p => (c :: p.1, p.2))

/-- Parse a JSON string literal starting at its opening quote. -/
def parseStr (input : List Char) : Option (List Char × List Char) :=
  match input with
  | c :: r => if c = '"' then parseStrAux r else none
  | [] => none

/-- Numeric value of a decimal digit character. -/
def digitVal (c : Char) : Nat :=
  c.toNat - 48

/-- Parse a nonempty run of decimal digits. -/
def pNat (input : List Char) : Option (Nat × List Char) :=
  let ds := input.takeWhile Char.isDigit
  if ds.isEmpty then none
  else some (ds.foldl (fun a c => a * 10 + digitVal c) 0, input.dropWhile Char.isDigit)

/-- Parse the comma-separated items of a nonempty integer array, up to and
including the closing bracket. -/
def pNatItems (fuel : Nat) (input : List Char) : Option (List Nat × List Char) :=
  match fuel with
  | 0 => none
  | f + 1 =>
    match pNat input with
    | none => none
    | some (n, r1) =>
      match r1 with
      | [] => none
      | c :: r2 =>
        if c = ',' then (pNatItems f r2).map (fun p => (n :: p.1, p.2))
        else if c = ']' then some ([n], r2)
        else none

/-- Parse a JSON array of integers. -/
def pArr (fuel : Nat) (input : List Char) : Option (List Nat × List Char) :=
  match input with
  | [] => none
  | c :: r =>
    if c = '[' then
      match r with
      | [] => none
      | c2 :: r2 => if c2 = ']' then some ([], r2) else pNatItems fuel r
    else none

/-- Parse one `"key":number` member. -/
def pNatField (input : List Char) : Option ((String × Nat) × List Char) :=
  match parseStr input with
  | none => none
  | some (k, r1) =>
    match r1 with
    | [] => none
    | c :: r2 =>
      if c = ':' then (pNat r2).map (fun p => ((⟨k⟩, p.1), p.2)) else none

/-- Parse the members of a nonempty all-integer object, up to and including
the closing brace. -/
def pNatFieldItems (fuel : Nat) (input : List Char) :
    Option (List (String × Nat) × List Char) :=
  match fuel with
  | 0 => none
  | f + 1 =>
    match pNatField input with
    | none => none
    | some (kv, r1) =>
      match r1 with
      | [] => none
      | c :: r2 =>
        if c = ',' then (pNatFieldItems f r2).map (fun p => (kv :: p.1, p.2))
        else if c = '\x7d' then some ([kv], r2)
        else none

/-- Parse an object all of whose member values are integers. -/
def pNatObj (fuel : Nat) (input : List Char) :
    Option (List (String × Nat) × List Char) :=
  match input with
  | [] => none
  | c :: r =>
    if c = '\x7b' then
      match r with
      | [] => none
      | c2 :: r2 => if c2 = '\x7d' then some ([], r2) else pNatFieldItems fuel r
    else none

/-- Parse a member value, dispatching on its first character. -/
def pFVal (fuel : Nat) (input : List Char) : Option (FVal × List Char) :=
  match input with
  | [] => none
  | c :: _ =>
    if c = '"' then (parseStr input).map (fun p => (.fstr ⟨p.1⟩, p.2))
    else if c = '[' then (pArr fuel input).map (fun p => (.farr p.1, p.2))
    else if c = '\x7b' then (pNatObj fuel input).map (fun p => (.fobj p.1, p.2))
    else if c.isDigit then (pNat input).map (fun p => (.fnum p.1, p.2))
    else none

/-- Parse one `"key":value` member. -/
def pField (fuel : Nat) (input : List Char) : Option ((String × FVal) × List Char) :=
  match parseStr input with
  | none => none
  | some (k, r1) =>
    match r1 with
    | [] => none
    | c :: r2 =>
      if c = ':' then (pFVal fuel r2).map (fun p => ((⟨k⟩, p.1), p.2)) else none

/-- Parse the members of a nonempty object, up to and including the closing
brace. -/
def pFieldItems (fuel : Nat) (input : List Char) :
    Option (List (String × FVal) × List Char) :=
  match fuel with
  | 0 => none
  | f + 1 =>
    match pField f input with
    | none => none
    | some (kv, r1) =>
      match r1 with
      | [] => none
      | c :: r2 =>
        if c = ',' then (pFieldItems f r2).map (fun p => (kv :: p.1, p.2))
        else if c = '\x7d' then some ([kv], r2)
        else none

/-- Parse a variant payload object. -/
def pFields (fuel : Nat) (input : List Char) :
    Option (List (String × FVal) × List Char) :=
  match input with
  | [] => none
  | c :: r =>
    if c = '\x7b' then
      match r with
      | [] => none
      | c2 :: r2 => if c2 = '\x7d' then some ([], r2) else pFieldItems fuel r
    else none

/-- Fuel lower bound sufficient to parse one member value (proof accounting
for the fuel parameters; not part of the embedded code). -/
def fvalNeed : FVal → Nat
  | .fnum _ => 0
  | .fstr _ => 0
  | .farr l => l.length
  | .fobj l => l.length

/-- Fuel lower bound sufficient to parse a member list (proof accounting). -/
def fieldsNeed : List (String × FVal) → Nat
  | [] => 0
  | (_, v) :: xs => fvalNeed v + fieldsNeed xs + 1

/-- Look up a member by key (serde consumes fields by name, in any order). -/
def getF (fs : List (String × FVal)) (k : String) : Option FVal :=
  (fs.find? (fun p => p.1 == k)).map (fun p => p.2)

/-- Extract a string member. -/
def getStr (fs : List (String × FVal)) (k : String) : Option String :=
  match getF fs k with
  | some (.fstr s) => some s
  | _ => none

/-- Extract an integer member. -/
def getNat (fs : List (String × FVal)) (k : String) : Option Nat :=
  match getF fs k with
  | some (.fnum n) => some n
  | _ => none

/-- Extract a byte-array member. -/
def getArr (fs : List (String × FVal)) (k : String) : Option (List Nat) :=
  match getF fs k with
  | some (.farr l) => some l
  | _ => none

/-- Extract a `SystemTime` member (its two fields, again by key). -/
def getTime (fs : List (String × FVal)) (k : String) : Option SystemTime :=
  match getF fs k with
  | some (.fobj l) =>
    match (l.find? (fun p => p.1 == "secs_since_epoch")).map (fun p => p.2),
          (l.find? (fun p => p.1 == "nanos_since_epoch")).map (fun p => p.2) with
    | some s, some n => some ⟨s, n⟩
    | _, _ => none
  | _ => none

/-- Build a `Message` from an external tag and parsed members, mirroring the
derived `Deserialize` (missing or ill-typed fields and unknown variants are
errors; extra fields are ignored). -/
def Message.ofFields (tag : String) (fs : List (String × FVal)) : Option Message :=
  if tag = "Text" then
    match getStr fs "username", getStr fs "content", getTime fs "timestamp" with
    | some u, some c, some t => some (.Text u c t)
    | _, _, _ => none
  else if tag = "File" then
    match getStr fs "username", getStr fs "filename", getNat fs "size",
          getArr fs "data", getTime fs "timestamp" with
    | some u, some f, some sz, some d, some t => some (.File u f sz d t)
    | _, _, _, _, _ => none
  else if tag = "UserJoined" then
    match getStr fs "username", getTime fs "timestamp" with
    | some u, some t => some (.UserJoined u t)
    | _, _ => none
  else if tag = "UserLeft" then
    match getStr fs "username", getTime fs "timestamp" with
    | some u, some t => some (.UserLeft u t)
    | _, _ => none
  else if tag = "System" then
    match getStr fs "content", getTime fs "timestamp" with
    | some c, some t => some (.System c t)
    | _, _ => none
  else none

/-- JSON whitespace (allowed by `serde_json::from_str` after the value). -/
def isJsonWs (c : Char) : Bool :=
  c = ' ' || c = '\t' || c = '\n' || c = '\r'

/-- `Message::from_json` (`serde_json::from_str::<Message>`); `Err` is
modelled as `none`. -/
def Message.from_json (s : String) : Option Message :=
  match s.data with
  | [] => none
  | c :: r0 =>
    if c = '\x7b' then
      match parseStr r0 with
      | none => none
      | some (tagChars, r1) =>
        match r1 with
        | [] => none
        | c1 :: r2 =>
          if c1 = ':' then
            match pFields r2.length r2 with
            | none => none
            | some (fs, r3) =>
              match r3 with
              | [] => none
              | c2 :: r4 =>
                if c2 = '\x7d' then
                  if (r4.dropWhile isJsonWs).isEmpty then Message.ofFields ⟨tagChars⟩ fs
                  else none
                else none
          else none
    else none

/-! ### Server model (`server.rs`, `handle_client`)

The connection registry is `Arc<Mutex<HashMap<Uuid, ClientInfo>>>`.  The
`HashMap` is modelled as an association list with at most one entry per key
(ids are `Nat`; `Uuid` is opaque and only compared for equality).  The
unbounded mpsc sender handle inside `ClientInfo` is modelled as an opaque
numeric handle. -/

/-- The `ClientInfo` struct of `server.rs`: username plus outbound queue
handle. -/
structure ClientInfo where
  username : String
  sender : Nat
deriving DecidableEq, Repr

/-- `HashMap::insert` as used at registration (`clients_guard.insert`):
replaces the value when the key is present, otherwise adds the entry.  The
old value is returned by the Rust API but the call site discards it. -/
def insertClient : List (Nat × ClientInfo) → Nat → ClientInfo → List (Nat × ClientInfo)
  | [], id, info => [(id, info)]
  | p :: t, id, info => if p.1 = id then (id, info) :: t else p :: insertClient t id info

/-- `HashMap::remove` as used at cleanup (`clients_guard.remove(&client_id)`):
drops the entry with the key if present, otherwise leaves the map unchanged,
and is not an error either way. -/
def removeClient (m : List (Nat × ClientInfo)) (id : Nat) : List (Nat × ClientInfo) :=
  m.filter (fun p => p.1 != id)

/-- `HashMap` lookup by id (for stating registry properties). -/
def lookupClient (m : List (Nat × ClientInfo)) (id : Nat) : Option ClientInfo :=
  (m.find? (fun p => p.1 == id)).map (fun p => p.2)

/-- Rust's `str::trim`: strip leading and trailing whitespace. -/
def trimChars (s : List Char) : List Char :=
  ((s.dropWhile Char.isWhitespace).reverse.dropWhile Char.isWhitespace).reverse

/-- String-level wrapper for `str::trim`. -/
def rustTrim (s : String) : String :=
  ⟨trimChars s.data⟩

/-- The echo-suppression test of the outbound loop (server.rs lines 107-110):
forward unless the envelope is `Text` whose `username` equals this session's
username (`msg_username != &username`; every other variant matches `_ => true`). -/
def shouldSend (username : String) (msg : Message) : Bool :=
  match msg with
  | .Text msgUsername _ _ => msgUsername != username
  | _ => true

/-- The inbound read loop of `handle_client` (lines 77-96) followed by its
disconnect tail: each raw line read is trimmed and, when nonempty, published
to the broadcast bus as a `Text` envelope authored by this session's
username; after EOF (or a read error, which `unwrap_or(0)` folds into EOF)
the loop ends and a single `UserLeft` is published.  `lines` are the
successive `read_line` results, `clk k` is the value of `SystemTime::now()`
at the k-th `Message` construction. -/
def readerLoop (username : String) : List String → (Nat → SystemTime) → Nat → List Message
  | [], clk, k => [Message.new_user_left username (clk k)]
  | line :: rest, clk, k =>
    let trimmed := rustTrim line
    if trimmed.isEmpty then readerLoop username rest clk k
    else Message.new_text username trimmed (clk k) :: readerLoop username rest clk (k + 1)

/-- The whole reader task: its published envelopes, and the registry after
its final `clients_guard.remove(&client_id)` (lines 94-95). -/
def readerTask (username : String) (lines : List String) (clk : Nat → SystemTime)
    (reg : List (Nat × ClientInfo)) (id : Nat) :
    List Message × List (Nat × ClientInfo) :=
  (readerLoop username lines clk 0, removeClient reg id)

/-- What a session's broadcast subscription yields, in bus order: either the
next published line or the `Err` of `broadcast_rx.recv()` (lagged or
channel closed). -/
inductive BusEvent where
  | item (line : String)
  | lagged
deriving DecidableEq, Repr

/-- The broadcast branch of the outbound `select!` loop (lines 102-119): each
received line is decoded; on success it is forwarded to this client's mpsc
queue when `shouldSend` allows it (the original JSON string is forwarded);
decode failures are skipped; `Err` breaks the loop.  Returns the sequence of
lines placed on the queue. -/
def outboundLoop (username : String) : List BusEvent → List String
  | [] => []
  | BusEvent.item j :: rest =>
    match Message.from_json j with
    | some m => if shouldSend username m then j :: outboundLoop username rest
                else outboundLoop username rest
    | none => outboundLoop username rest
  | BusEvent.lagged :: _ => []

/-- The mpsc branch of the same `select!` loop (lines 121-129): each queued
line is received and dropped — the `Some(_json_msg)` arm has an empty body
(the socket lives in the reader task), so no socket write is produced for
any queued line. -/
def rxConsumerWrites (queued : List String) : List String :=
  queued.filterMap (fun _ => none)

/-- Everything `handle_client` ever writes to this client's socket: the
direct welcome write (line 70) followed by whatever the outbound loop
produces for the socket.  After the welcome, the socket is moved into the
reader task, and the outbound loop's queue consumer emits nothing. -/
def sessionSocketWrites (welcomeLine : String) (username : String)
    (events : List BusEvent) : List String :=
  (welcomeLine ++ "\n") :: rxConsumerWrites (outboundLoop username events)

/-- Observable effects of the outbound `select!` loop beyond its queue: it
publishes nothing and removes nothing from the registry on any of its exit
paths (both `Err(_) => break` and `None => break` simply leave the loop and
`handle_client` returns `Ok`). -/
structure OutboundExit where
  queued : List String
  publishedOnExit : List Message
  removedIds : List Nat
deriving DecidableEq, Repr

/-- The outbound loop's full observable behavior for a session. -/
def outboundTask (username : String) (events : List BusEvent) : OutboundExit :=
  { queued := outboundLoop username events
    publishedOnExit := []
    removedIds := [] }

/-- Discriminator for `UserLeft` envelopes. -/
def isUserLeftB : Message → Bool
  | .UserLeft .. => true
  | _ => false

/-- Body of a `Text` envelope, if any. -/
def textBody : Message → Option String
  | .Text _ b _ => some b
  | _ => none

/-- Validity of the `size` field of a `File` envelope (trivially true for
other variants): the spec's invariant that `byte_length` equals `len(bytes)`. -/
def fileSizeOk : Message → Bool
  | .File _ _ sz d _ => sz == d.length
  | _ => true

/-! ### Client model (`client.rs`, `ui.rs`) -/

/-- The client's outbound task (client.rs lines 58-63): drain the local
queue and write each item to the socket as a raw newline-terminated line
(the code comment reads "Send raw text instead of JSON to server"). -/
def clientOutboundWrites : List String → List String
  | [] => []
  | text :: rest => (text ++ "\n") :: clientOutboundWrites rest

/-- Modelled from the spec: `FileTransfer::read_file_with_username` is called
by `ui.rs` (`handle_file_command`, line 601) but is not defined anywhere in
the sources (`file_transfer.rs` only has `read_file`, which hardcodes the
username "user").  Per spec section 4.5 a file-send request is wrapped as a
`FilePayload` envelope whose `author` is the client's own username, so the
missing function is modelled as `Message::new_file` with the caller's
username, mirroring `read_file`'s use of `new_file`.  `data` are the bytes
read from the file, `now` the read time. -/
def read_file_with_username (username filename : String) (data : List Nat)
    (now : SystemTime) : Message :=
  Message.new_file username filename data now

/-- The UI's `/file` submit path (`handle_file_command`, ui.rs lines
598-614): serialize the `File` message and place `"FILE:" + json` on the
client's outbound queue as a single raw item. -/
def handle_file_command (username filename : String) (data : List Nat)
    (now : SystemTime) : String :=
  "FILE:" ++ (read_file_with_username username filename data now).to_json

/-! ### Codec lemmas: strings -/

/-- Structure eta for strings. -/
theorem string_mk_data (s : String) : String.mk s.data = s := rfl

/-- Hex digits parse back to their value. -/
theorem hexVal_hexDigit (d : Nat) (h : d < 16) : hexVal (hexDigit d) = some d := by
  interval_cases d <;> decide

/-- Rebuilding a scalar value below the surrogate range gives back the
character. -/
theorem mkCharOfNat_toNat (c : Char) (h : c.toNat < 55296) :
    mkCharOfNat c.toNat = some c := by
  rw [mkCharOfNat, if_pos (Or.inl h), Char.ofNat_toNat]

/-- Unfolding `escape` over a cons cell. -/
theorem escape_cons (c : Char) (s : List Char) :
    escape (c :: s) = escChar c ++ escape s := by
  simp [escape]

/-- Parsing a 4-hex-digit escape of the form `00XY`. -/
theorem parseStrAux_u (hi lo : Nat) (hhi : hi < 16) (hlo : lo < 16) (tail : List Char) :
    parseStrAux ('\\' :: 'u' :: '0' :: '0' :: hexDigit hi :: hexDigit lo :: tail)
      = match mkCharOfNat (16 * hi + lo) with
        | some ch => (parseStrAux tail).map (fun p => (ch :: p.1, p.2))
        | none => none := by
  rw [parseStrAux.eq_def]
  simp [hexVal_hexDigit _ hhi, hexVal_hexDigit _ hlo,
        show hexVal '0' = some 0 from by decide]

/-- Parsing an escaped string body consumes exactly the escape of the
original characters plus the closing quote. -/
theorem parseStrAux_escape (s : List Char) (rest : List Char) :
    parseStrAux (escape s ++ ('"' :: rest)) = some (s, rest) := by
  induction s with
  | nil =>
    simp only [escape, List.flatMap_nil, List.nil_append]
    rw [parseStrAux.eq_def]
    simp
  | cons c s ih =>
    rw [escape_cons, List.append_assoc]
    by_cases h1 : c = '"'
    · subst h1
      rw [show escChar '"' = ['\\', '"'] from by simp [escChar]]
      simp only [List.cons_append, List.nil_append]
      rw [parseStrAux.eq_def]
      simp [unescChar, ih]
    · by_cases h2 : c = '\\'
      · subst h2
        rw [show escChar '\\' = ['\\', '\\'] from by simp [escChar]]
        simp only [List.cons_append, List.nil_append]
        rw [parseStrAux.eq_def]
        simp [unescChar, ih]
      · by_cases h3 : c = '\x08'
        · subst h3
          rw [show escChar '\x08' = ['\\', 'b'] from by simp [escChar]]
          simp only [List.cons_append, List.nil_append]
          rw [parseStrAux.eq_def]
          simp [unescChar, ih]
        · by_cases h4 : c = '\t'
          · subst h4
            rw [show escChar '\t' = ['\\', 't'] from by simp [escChar]]
            simp only [List.cons_append, List.nil_append]
            rw [parseStrAux.eq_def]
            simp [unescChar, ih]
          · by_cases h5 : c = '\n'
            · subst h5
              rw [show escChar '\n' = ['\\', 'n'] from by simp [escChar]]
              simp only [List.cons_append, List.nil_append]
              rw [parseStrAux.eq_def]
              simp [unescChar, ih]
            · by_cases h6 : c = '\x0c'
              · subst h6
                rw [show escChar '\x0c' = ['\\', 'f'] from by simp [escChar]]
                simp only [List.cons_append, List.nil_append]
                rw [parseStrAux.eq_def]
                simp [unescChar, ih]
              · by_cases h7 : c = '\r'
                · subst h7
                  rw [show escChar '\r' = ['\\', 'r'] from by simp [escChar]]
                  simp only [List.cons_append, List.nil_append]
                  rw [parseStrAux.eq_def]
                  simp [unescChar, ih]
                · by_cases h8 : c.toNat < 32
                  · have hdiv : c.toNat / 16 < 16 := by omega
                    have hmod : c.toNat % 16 < 16 := Nat.mod_lt _ (by omega)
                    rw [show escChar c =
                        ['\\', 'u', '0', '0', hexDigit (c.toNat / 16), hexDigit (c.toNat % 16)]
                      from by simp [escChar, h1, h2, h3, h4, h5, h6, h7, h8]]
                    simp only [List.cons_append, List.nil_append]
                    rw [parseStrAux_u _ _ hdiv hmod]
                    rw [show 16 * (c.toNat / 16) + c.toNat % 16 = c.toNat from by
                      have := Nat.div_add_mod c.toNat 16
                      omega]
                    rw [mkCharOfNat_toNat c (by omega)]
                    simp [ih]
                  · rw [show escChar c = [c] from by
                        simp [escChar, h1, h2, h3, h4, h5, h6, h7, h8]]
                    simp only [List.cons_append, List.nil_append]
                    rw [parseStrAux.eq_def]
                    simp [h1, h2, ih]

/-- Parsing a rendered string literal returns the original characters and
the remainder. -/
theorem parseStr_renderStr (s : List Char) (rest : List Char) :
    parseStr (renderStr s ++ rest) = some (s, rest) := by
  rw [renderStr]
  simp only [List.cons_append, List.append_assoc, List.singleton_append]
  simp only [parseStr, if_pos]
  exact parseStrAux_escape s rest

/-! ### Codec lemmas: numbers -/

/-- With enough fuel, the fueled digit function agrees with `Nat.digits`. -/
theorem natDigitsF_eq_digits (f : Nat) : ∀ n : Nat, n ≤ f → natDigitsF f n = Nat.digits 10 n := by
  induction f with
  | zero =>
    intro n hn
    interval_cases n
    simp [natDigitsF]
  | succ f ih =>
    intro n hn
    by_cases h0 : n = 0
    · simp [natDigitsF, h0]
    · rw [natDigitsF, if_neg h0]
      rw [ih (n / 10) (by
        have := Nat.div_lt_self (Nat.pos_of_ne_zero h0) (by norm_num : (1 : Nat) < 10)
        omega)]
      rw [Nat.digits_def' (by norm_num : (1 : Nat) < 10) (Nat.pos_of_ne_zero h0)]

/-- Decimal digits render to digit characters. -/
theorem hexDigit_isDigit (d : Nat) (h : d < 10) : (hexDigit d).isDigit = true := by
  interval_cases d <;> decide

/-- Decimal digit characters parse back to their value. -/
theorem digitVal_hexDigit (d : Nat) (h : d < 10) : digitVal (hexDigit d) = d := by
  interval_cases d <;> decide

/-- Every character of a rendered number is a decimal digit. -/
theorem natRender_all_digits (n : Nat) : ∀ c ∈ natRender n, c.isDigit = true := by
  intro c hc
  by_cases h0 : n = 0
  · simp [natRender, h0] at hc
    simp [hc]
  · simp only [natRender, if_neg h0, List.mem_map, List.mem_reverse] at hc
    obtain ⟨d, hd, rfl⟩ := hc
    rw [natDigitsF_eq_digits n n le_rfl] at hd
    exact hexDigit_isDigit d (Nat.digits_lt_base (by norm_num) hd)

/-- A rendered number is never empty. -/
theorem natRender_ne_nil (n : Nat) : natRender n ≠ [] := by
  by_cases h0 : n = 0
  · simp [natRender, h0]
  · simp only [natRender, if_neg h0, ne_eq, List.map_eq_nil_iff, List.reverse_eq_nil_iff]
    rw [natDigitsF_eq_digits n n le_rfl]
    simp [Nat.digits_ne_nil_iff_ne_zero, h0]

/-- Folding the rendered most-significant-first digits of a list of digits
recovers `Nat.ofDigits`. -/
theorem foldl_rev_digits (l : List Nat) (hl : ∀ d ∈ l, d < 10) : ∀ acc : Nat,
    (l.reverse.map hexDigit).foldl (fun a c => a * 10 + digitVal c) acc
      = acc * 10 ^ l.length + Nat.ofDigits 10 l := by
  induction l with
  | nil => intro acc; simp [Nat.ofDigits_nil]
  | cons d t ih =>
    intro acc
    have hd : d < 10 := hl d (by simp)
    have ht : ∀ x ∈ t, x < 10 := fun x hx => hl x (by simp [hx])
    rw [List.reverse_cons, List.map_append, List.foldl_append]
    rw [ih ht acc]
    simp only [List.map_cons, List.map_nil, List.foldl_cons, List.foldl_nil]
    rw [digitVal_hexDigit d hd, Nat.ofDigits_cons]
    simp only [List.length_cons, pow_succ]
    ring

/-- Folding the rendered decimal characters of `n` recovers `n`. -/
theorem natVal_natRender (n : Nat) :
    (natRender n).foldl (fun a c => a * 10 + digitVal c) 0 = n := by
  by_cases h0 : n = 0
  · simp [natRender, h0, digitVal]
  · rw [natRender, if_neg h0, natDigitsF_eq_digits n n le_rfl]
    rw [foldl_rev_digits _ (fun d hd => Nat.digits_lt_base (by norm_num) hd) 0]
    simp [Nat.ofDigits_digits]

/-- `takeWhile` passes over a prefix all of whose elements satisfy the
predicate. -/
theorem takeWhile_append_all (p : Char → Bool) (a b : List Char)
    (h : ∀ c ∈ a, p c = true) : (a ++ b).takeWhile p = a ++ b.takeWhile p := by
  induction a with
  | nil => simp
  | cons x xs ih =>
    simp only [List.cons_append, List.takeWhile_cons, h x (by simp)]
    simp [ih fun c hc => h c (by simp [hc])]

/-- `dropWhile` drops a prefix all of whose elements satisfy the predicate. -/
theorem dropWhile_append_all (p : Char → Bool) (a b : List Char)
    (h : ∀ c ∈ a, p c = true) : (a ++ b).dropWhile p = b.dropWhile p := by
  induction a with
  | nil => simp
  | cons x xs ih =>
    simp only [List.cons_append, List.dropWhile_cons, h x (by simp)]
    simp [ih fun c hc => h c (by simp [hc])]

/-- If `takeWhile` keeps nothing, `dropWhile` keeps everything. -/
theorem dropWhile_eq_self_of_takeWhile_nil (p : Char → Bool) (l : List Char)
    (h : l.takeWhile p = []) : l.dropWhile p = l := by
  cases l with
  | nil => rfl
  | cons x xs =>
    simp only [List.takeWhile_cons] at h
    by_cases hp : p x = true
    · simp [hp] at h
    · simp only [List.dropWhile_cons]
      simp [hp]

/-- Parsing a rendered number followed by a non-digit remainder yields the
number and the remainder. -/
theorem pNat_natRender (n : Nat) (rest : List Char)
    (h : rest.takeWhile Char.isDigit = []) :
    pNat (natRender n ++ rest) = some (n, rest) := by
  have hall := natRender_all_digits n
  have htw : (natRender n ++ rest).takeWhile Char.isDigit
      = natRender n ++ rest.takeWhile Char.isDigit :=
    takeWhile_append_all _ _ _ hall
  have hdw : (natRender n ++ rest).dropWhile Char.isDigit = rest.dropWhile Char.isDigit :=
    dropWhile_append_all _ _ _ hall
  rw [pNat]
  simp only [htw, hdw, h, List.append_nil]
  rw [if_neg (by simpa [List.isEmpty_iff] using natRender_ne_nil n)]
  rw [natVal_natRender n, dropWhile_eq_self_of_takeWhile_nil _ _ h]

/-! ### Codec lemmas: arrays and objects -/

/-- A rendered number starts with a digit character. -/
theorem natRender_head (n : Nat) : ∃ hd tl, natRender n = hd :: tl ∧ hd.isDigit = true := by
  cases h : natRender n with
  | nil => exact absurd h (natRender_ne_nil n)
  | cons a b => exact ⟨a, b, rfl, natRender_all_digits n a (by simp [h])⟩

/-- Digit characters are none of the JSON structural characters. -/
theorem isDigit_ne_structural (c : Char) (h : c.isDigit = true) :
    c ≠ ']' ∧ c ≠ '\x7d' ∧ c ≠ '"' ∧ c ≠ '[' ∧ c ≠ '\x7b' ∧ c ≠ ',' := by
  refine ⟨?_, ?_, ?_, ?_, ?_, ?_⟩ <;>
    (intro he; subst he; exact absurd h (by decide))

/-- `takeWhile isDigit` keeps nothing from a list starting with a non-digit. -/
theorem takeWhile_isDigit_cons (c : Char) (l : List Char) (h : c.isDigit = false) :
    (c :: l).takeWhile Char.isDigit = [] := by
  simp [List.takeWhile_cons, h]

/-- Parsing the rendered comma-separated items of a nonempty array. -/
theorem pNatItems_spec (xs : List Nat) : ∀ (x : Nat) (fuel : Nat) (rest : List Char),
    xs.length < fuel →
    pNatItems fuel
        (natRender x ++ (xs.flatMap (fun n => ',' :: natRender n) ++ (']' :: rest)))
      = some (x :: xs, rest) := by
  induction xs with
  | nil =>
    intro x fuel rest hf
    obtain ⟨f, rfl⟩ : ∃ f, fuel = f + 1 := ⟨fuel - 1, by omega⟩
    rw [pNatItems.eq_def]
    simp only [List.flatMap_nil, List.nil_append]
    rw [pNat_natRender x (']' :: rest) (takeWhile_isDigit_cons _ _ (by decide))]
    simp
  | cons y ys ih =>
    intro x fuel rest hf
    obtain ⟨f, rfl⟩ : ∃ f, fuel = f + 1 := ⟨fuel - 1, by omega⟩
    rw [pNatItems.eq_def]
    simp only [List.flatMap_cons, List.cons_append, List.append_assoc]
    rw [pNat_natRender x _ (takeWhile_isDigit_cons _ _ (by decide))]
    simp only [if_true]
    rw [ih y f rest (by simp at hf; omega)]
    rfl

/-- Parsing a rendered integer array. -/
theorem pArr_spec (l : List Nat) (fuel : Nat) (rest : List Char) (hf : l.length ≤ fuel) :
    pArr fuel (renderArr l ++ rest) = some (l, rest) := by
  cases l with
  | nil =>
    rw [show renderArr [] = ['[', ']'] from rfl]
    simp [pArr]
  | cons x xs =>
    rw [renderArr]
    simp only [List.cons_append, List.append_assoc, List.singleton_append]
    obtain ⟨hd, tl, hheq, hdig⟩ := natRender_head x
    rw [hheq]
    simp only [List.cons_append, pArr, if_true]
    rw [if_neg (isDigit_ne_structural hd hdig).1]
    rw [← List.cons_append, ← hheq]
    exact pNatItems_spec xs x fuel rest (by simp at hf; omega)

/-- Parsing one rendered `"key":number` member followed by a non-digit
remainder. -/
theorem pNatField_spec (k : String) (n : Nat) (rest : List Char)
    (h : rest.takeWhile Char.isDigit = []) :
    pNatField (renderNatField k n ++ rest) = some ((k, n), rest) := by
  rw [renderNatField]
  simp only [List.append_assoc, List.cons_append]
  rw [pNatField]
  rw [parseStr_renderStr k.data (':' :: (natRender n ++ rest))]
  simp only [if_pos rfl]
  rw [pNat_natRender n rest h]
  simp [string_mk_data]

/-- Parsing the rendered members of a nonempty all-integer object. -/
theorem pNatFieldItems_spec (xs : List (String × Nat)) :
    ∀ (k : String) (n : Nat) (fuel : Nat) (rest : List Char),
    xs.length < fuel →
    pNatFieldItems fuel
        (renderNatField k n ++
          (xs.flatMap (fun p => ',' :: renderNatField p.1 p.2) ++ ('\x7d' :: rest)))
      = some ((k, n) :: xs, rest) := by
  induction xs with
  | nil =>
    intro k n fuel rest hf
    obtain ⟨f, rfl⟩ : ∃ f, fuel = f + 1 := ⟨fuel - 1, by omega⟩
    rw [pNatFieldItems.eq_def]
    simp only [List.flatMap_nil, List.nil_append]
    rw [pNatField_spec k n ('\x7d' :: rest) (takeWhile_isDigit_cons _ _ (by decide))]
    simp
  | cons y ys ih =>
    intro k n fuel rest hf
    obtain ⟨f, rfl⟩ : ∃ f, fuel = f + 1 := ⟨fuel - 1, by omega⟩
    rw [pNatFieldItems.eq_def]
    simp only [List.flatMap_cons, List.cons_append, List.append_assoc]
    rw [pNatField_spec k n _ (takeWhile_isDigit_cons _ _ (by decide))]
    simp only [if_true]
    rw [ih y.1 y.2 f rest (by simp at hf; omega)]
    rfl

/-- Parsing a rendered all-integer object (the `SystemTime` form). -/
theorem pNatObj_spec (l : List (String × Nat)) (fuel : Nat) (rest : List Char)
    (hf : l.length ≤ fuel) :
    pNatObj fuel (renderNatObj l ++ rest) = some (l, rest) := by
  cases l with
  | nil =>
    rw [show renderNatObj [] = ['\x7b', '\x7d'] from rfl]
    simp [pNatObj]
  | cons x xs =>
    rw [show renderNatObj (x :: xs)
        = ('\x7b' :: renderNatField x.1 x.2) ++
          (xs.flatMap (fun p => ',' :: renderNatField p.1 p.2)) ++ ['\x7d'] from by
      rw [renderNatObj]]
    simp only [List.cons_append, List.append_assoc, List.singleton_append]
    have hhead : ∃ tl, renderNatField x.1 x.2 = '"' :: tl := by
      rw [renderNatField, renderStr]
      exact ⟨_, rfl⟩
    obtain ⟨tl, htl⟩ := hhead
    rw [htl]
    simp only [List.cons_append, pNatObj, if_true]
    rw [if_neg (by decide : ¬('"' : Char) = '\x7d')]
    rw [← List.cons_append, ← htl]
    exact pNatFieldItems_spec xs x.1 x.2 fuel rest (by simp at hf; omega)

/-! ### Codec lemmas: member values and member lists -/

/-- Parsing a rendered member value with enough fuel and a non-digit
remainder. -/
theorem pFVal_spec (v : FVal) (fuel : Nat) (rest : List Char)
    (hfuel : fvalNeed v ≤ fuel) (hrest : rest.takeWhile Char.isDigit = []) :
    pFVal fuel (renderFVal v ++ rest) = some (v, rest) := by
  cases v with
  | fnum n =>
    obtain ⟨hd, tl, hheq, hdig⟩ := natRender_head n
    rw [renderFVal, hheq]
    simp only [List.cons_append, pFVal]
    have hne := isDigit_ne_structural hd hdig
    rw [if_neg hne.2.2.1, if_neg hne.2.2.2.1, if_neg hne.2.2.2.2.1, if_pos hdig]
    rw [← List.cons_append, ← hheq]
    rw [pNat_natRender n rest hrest]
    rfl
  | fstr s =>
    rw [renderFVal]
    have hhead : ∃ tl, renderStr s.data = '"' :: tl := by
      rw [renderStr]
      exact ⟨_, rfl⟩
    obtain ⟨tl, htl⟩ := hhead
    rw [htl]
    simp only [List.cons_append, pFVal, if_true]
    rw [← List.cons_append, ← htl]
    rw [parseStr_renderStr s.data rest]
    rfl
  | farr l =>
    rw [renderFVal]
    have hhead : ∃ tl, renderArr l = '[' :: tl := by
      cases l <;> exact ⟨_, rfl⟩
    obtain ⟨tl, htl⟩ := hhead
    rw [htl]
    simp only [List.cons_append, pFVal]
    simp only [if_true]
    rw [← List.cons_append, ← htl]
    rw [pArr_spec l fuel rest (by simpa [fvalNeed] using hfuel)]
    rfl
  | fobj l =>
    rw [renderFVal]
    have hhead : ∃ tl, renderNatObj l = '\x7b' :: tl := by
      cases l <;> exact ⟨_, rfl⟩
    obtain ⟨tl, htl⟩ := hhead
    rw [htl]
    simp only [List.cons_append, pFVal]
    simp only [if_true]
    rw [← List.cons_append, ← htl]
    rw [pNatObj_spec l fuel rest (by simpa [fvalNeed] using hfuel)]
    rfl

/-- Parsing one rendered `"key":value` member. -/
theorem pField_spec (k : String) (v : FVal) (fuel : Nat) (rest : List Char)
    (hfuel : fvalNeed v ≤ fuel) (hrest : rest.takeWhile Char.isDigit = []) :
    pField fuel (renderField k v ++ rest) = some ((k, v), rest) := by
  rw [renderField]
  simp only [List.append_assoc, List.cons_append]
  rw [pField]
  rw [parseStr_renderStr k.data (':' :: (renderFVal v ++ rest))]
  simp only [if_true]
  rw [pFVal_spec v fuel rest hfuel hrest]
  rfl

/-- Parsing the rendered members of a nonempty payload object. -/
theorem pFieldItems_spec (xs : List (String × FVal)) :
    ∀ (k : String) (v : FVal) (fuel : Nat) (rest : List Char),
    fieldsNeed ((k, v) :: xs) ≤ fuel →
    pFieldItems fuel
        (renderField k v ++
          (xs.flatMap (fun p => ',' :: renderField p.1 p.2) ++ ('\x7d' :: rest)))
      = some ((k, v) :: xs, rest) := by
  induction xs with
  | nil =>
    intro k v fuel rest hf
    have h1 : fvalNeed v + 1 ≤ fuel := by simpa [fieldsNeed] using hf
    obtain ⟨f, rfl⟩ : ∃ f, fuel = f + 1 := ⟨fuel - 1, by omega⟩
    rw [pFieldItems.eq_def]
    simp only [List.flatMap_nil, List.nil_append]
    rw [pField_spec k v f ('\x7d' :: rest) (by omega)
        (takeWhile_isDigit_cons _ _ (by decide))]
    simp
  | cons y ys ih =>
    obtain ⟨k2, v2⟩ := y
    intro k v fuel rest hf
    have hneed : fvalNeed v + (fvalNeed v2 + fieldsNeed ys + 1) + 1 ≤ fuel := by
      simpa [fieldsNeed] using hf
    obtain ⟨f, rfl⟩ : ∃ f, fuel = f + 1 := ⟨fuel - 1, by omega⟩
    rw [pFieldItems.eq_def]
    simp only [List.flatMap_cons, List.cons_append, List.append_assoc]
    rw [pField_spec k v f _ (by omega) (takeWhile_isDigit_cons _ _ (by decide))]
    simp only [if_true]
    rw [ih k2 v2 f rest (by simp [fieldsNeed]; omega)]
    rfl

/-- Parsing a rendered payload object. -/
theorem pFields_spec (l : List (String × FVal)) (fuel : Nat) (rest : List Char)
    (hf : fieldsNeed l ≤ fuel) :
    pFields fuel (renderFields l ++ rest) = some (l, rest) := by
  cases l with
  | nil =>
    rw [show renderFields [] = ['\x7b', '\x7d'] from rfl]
    simp [pFields]
  | cons x xs =>
    obtain ⟨k, v⟩ := x
    rw [show renderFields ((k, v) :: xs)
        = ('\x7b' :: renderField k v) ++
          (xs.flatMap (fun p => ',' :: renderField p.1 p.2)) ++ ['\x7d'] from by
      rw [renderFields]]
    simp only [List.cons_append, List.append_assoc, List.singleton_append]
    have hhead : ∃ tl, renderField k v = '"' :: tl := by
      rw [renderField, renderStr]
      exact ⟨_, rfl⟩
    obtain ⟨tl, htl⟩ := hhead
    rw [htl]
    simp only [List.cons_append, pFields, if_true]
    rw [if_neg (by decide : ¬('"' : Char) = '\x7d')]
    rw [← List.cons_append, ← htl]
    exact pFieldItems_spec xs k v fuel rest hf

/-! ### Codec lemmas: fuel bounds -/

/-- Each array item contributes at least one character. -/
theorem length_flatMap_natRender (xs : List Nat) :
    xs.length ≤ (xs.flatMap (fun n => ',' :: natRender n)).length := by
  induction xs with
  | nil => simp
  | cons y ys ih =>
    simp only [List.flatMap_cons, List.length_append, List.length_cons]
    omega

/-- Each integer-object member contributes at least one character. -/
theorem length_flatMap_natField (xs : List (String × Nat)) :
    xs.length ≤ (xs.flatMap (fun p => ',' :: renderNatField p.1 p.2)).length := by
  induction xs with
  | nil => simp
  | cons y ys ih =>
    simp only [List.flatMap_cons, List.length_append, List.length_cons]
    omega

/-- The fuel needed for a member value is at most its rendered length. -/
theorem fvalNeed_le_renderFVal (v : FVal) : fvalNeed v ≤ (renderFVal v).length := by
  cases v with
  | fnum n => simp [fvalNeed]
  | fstr s => simp [fvalNeed]
  | farr l =>
    cases l with
    | nil => simp [fvalNeed, renderFVal, renderArr]
    | cons x xs =>
      have h1 := length_flatMap_natRender xs
      have h2 : 1 ≤ (natRender x).length :=
        List.length_pos.mpr (natRender_ne_nil x)
      simp only [fvalNeed, renderFVal, renderArr, List.cons_append, List.length_append,
                 List.length_cons]
      simp only [List.length_cons, List.length_nil]
      omega
  | fobj l =>
    cases l with
    | nil => simp [fvalNeed, renderFVal, renderNatObj]
    | cons x xs =>
      have h1 := length_flatMap_natField xs
      simp only [fvalNeed, renderFVal]
      rw [show renderNatObj (x :: xs)
          = ('\x7b' :: renderNatField x.1 x.2) ++
            (xs.flatMap (fun p => ',' :: renderNatField p.1 p.2)) ++ ['\x7d'] from by
        rw [renderNatObj]]
      simp only [List.length_append, List.length_cons, List.length_nil]
      omega

/-- The fuel needed for a member-list tail is at most the rendered tail
length plus one. -/
theorem fieldsNeed_le_flat (xs : List (String × FVal)) :
    fieldsNeed xs ≤ (xs.flatMap (fun p => ',' :: renderField p.1 p.2)).length + 1 := by
  induction xs with
  | nil => simp [fieldsNeed]
  | cons y ys ih =>
    obtain ⟨k, v⟩ := y
    have h1 := fvalNeed_le_renderFVal v
    have h2 : (renderFVal v).length ≤ (renderField k v).length := by
      simp only [renderField, List.length_append, List.length_cons]
      omega
    simp only [fieldsNeed, List.flatMap_cons, List.length_append, List.length_cons]
    omega

/-- The fuel needed for a payload object is at most its rendered length. -/
theorem fieldsNeed_le_renderFields (l : List (String × FVal)) :
    fieldsNeed l ≤ (renderFields l).length := by
  cases l with
  | nil => simp [fieldsNeed, renderFields]
  | cons x xs =>
    obtain ⟨k, v⟩ := x
    have h1 := fvalNeed_le_renderFVal v
    have h2 : (renderFVal v).length ≤ (renderField k v).length := by
      simp only [renderField, List.length_append, List.length_cons]
      omega
    have h3 := fieldsNeed_le_flat xs
    rw [show renderFields ((k, v) :: xs)
        = ('\x7b' :: renderField k v) ++
          (xs.flatMap (fun p => ',' :: renderField p.1 p.2)) ++ ['\x7d'] from by
      rw [renderFields]]
    simp only [fieldsNeed, List.length_append, List.length_cons, List.length_nil]
    omega

/-! ### Codec round trip -/

/-- Rebuilding a `Message` from its own tag and field list succeeds and
returns the message. -/
theorem ofFields_fields (m : Message) : Message.ofFields m.tag m.fields = some m := by
  cases m <;>
    simp [Message.ofFields, Message.tag, Message.fields, getStr, getNat, getArr,
          getTime, getF, timeFields, List.find?]

/-- Round trip: decoding an encoded `Message` recovers it field for field. -/
theorem to_json_from_json (m : Message) :
    Message.from_json (Message.to_json m) = some m := by
  rw [Message.to_json, Message.from_json]
  simp only [List.cons_append, List.append_assoc, List.singleton_append]
  rw [parseStr_renderStr m.tag.data (':' :: (renderFields m.fields ++ '\x7d' :: []))]
  simp only [if_true]
  rw [pFields_spec m.fields _ ('\x7d' :: [])
      (le_trans (fieldsNeed_le_renderFields m.fields) (by simp))]
  simp only [if_true, List.dropWhile_nil, List.isEmpty_nil, string_mk_data]
  exact ofFields_fields m

/-! ### Codec: the encoded form is newline free -/

/-- Hex digits are not newlines. -/
theorem hexDigit_ne_newline (d : Nat) (h : d < 16) : hexDigit d ≠ '\n' := by
  interval_cases d <;> decide

/-- No character of a single-character escape is a newline. -/
theorem escChar_no_newline (c : Char) : ∀ x ∈ escChar c, x ≠ '\n' := by
  intro x hx he
  subst he
  rw [escChar] at hx
  by_cases h1 : c = '"'
  · simp only [h1, if_true] at hx
    exact absurd hx (by decide)
  · rw [if_neg h1] at hx
    by_cases h2 : c = '\\'
    · simp only [h2, if_true] at hx
      exact absurd hx (by decide)
    · rw [if_neg h2] at hx
      by_cases h3 : c = '\x08'
      · simp only [h3, if_true] at hx
        exact absurd hx (by decide)
      · rw [if_neg h3] at hx
        by_cases h4 : c = '\t'
        · simp only [h4, if_true] at hx
          exact absurd hx (by decide)
        · rw [if_neg h4] at hx
          by_cases h5 : c = '\n'
          · simp only [h5, if_true] at hx
            exact absurd hx (by decide)
          · rw [if_neg h5] at hx
            by_cases h6 : c = '\x0c'
            · simp only [h6, if_true] at hx
              exact absurd hx (by decide)
            · rw [if_neg h6] at hx
              by_cases h7 : c = '\r'
              · simp only [h7, if_true] at hx
                exact absurd hx (by decide)
              · rw [if_neg h7] at hx
                by_cases h8 : c.toNat < 32
                · rw [if_pos h8] at hx
                  simp only [List.mem_cons, List.not_mem_nil, or_false] at hx
                  rcases hx with h | h | h | h | h | h
                  · exact absurd h (by decide)
                  · exact absurd h (by decide)
                  · exact absurd h (by decide)
                  · exact absurd h (by decide)
                  · exact hexDigit_ne_newline (c.toNat / 16) (by omega) h.symm
                  · exact hexDigit_ne_newline (c.toNat % 16) (Nat.mod_lt _ (by omega)) h.symm
                · rw [if_neg h8] at hx
                  simp only [List.mem_cons, List.not_mem_nil, or_false] at hx
                  exact h5 hx.symm

/-- Escaped string bodies contain no newline. -/
theorem escape_no_newline (s : List Char) : ∀ x ∈ escape s, x ≠ '\n' := by
  intro x hx
  rw [escape, List.mem_flatMap] at hx
  obtain ⟨c, -, hc⟩ := hx
  exact escChar_no_newline c x hc

/-- Rendered string literals contain no newline. -/
theorem renderStr_no_newline (s : List Char) : ∀ x ∈ renderStr s, x ≠ '\n' := by
  intro x hx he
  subst he
  rw [renderStr] at hx
  simp only [List.mem_cons, List.mem_append, List.not_mem_nil, or_false] at hx
  rcases hx with h | h | h
  · exact absurd h (by decide)
  · exact escape_no_newline s _ h rfl
  · exact absurd h (by decide)

/-- Rendered numbers contain no newline. -/
theorem natRender_no_newline (n : Nat) : ∀ x ∈ natRender n, x ≠ '\n' := by
  intro x hx he
  have := natRender_all_digits n x hx
  subst he
  exact absurd this (by decide)

/-- Rendered integer arrays contain no newline. -/
theorem renderArr_no_newline (l : List Nat) : ∀ x ∈ renderArr l, x ≠ '\n' := by
  intro x hx he
  subst he
  cases l with
  | nil => exact absurd hx (by decide)
  | cons y ys =>
    rw [renderArr] at hx
    simp only [List.mem_append, List.mem_cons, List.not_mem_nil, or_false,
               List.mem_flatMap] at hx
    rcases hx with ((h | h) | ⟨n, -, hn⟩) | h
    · exact absurd h (by decide)
    · exact natRender_no_newline y _ h rfl
    · rcases hn with h | h
      · exact absurd h (by decide)
      · exact natRender_no_newline n _ h rfl
    · exact absurd h (by decide)

/-- Rendered `"key":number` members contain no newline. -/
theorem renderNatField_no_newline (k : String) (n : Nat) :
    ∀ x ∈ renderNatField k n, x ≠ '\n' := by
  intro x hx he
  subst he
  rw [renderNatField] at hx
  simp only [List.mem_append, List.mem_cons] at hx
  rcases hx with h | h | h
  · exact renderStr_no_newline k.data _ h rfl
  · exact absurd h (by decide)
  · exact natRender_no_newline n _ h rfl

/-- Rendered integer objects contain no newline. -/
theorem renderNatObj_no_newline (l : List (String × Nat)) :
    ∀ x ∈ renderNatObj l, x ≠ '\n' := by
  intro x hx he
  subst he
  cases l with
  | nil => exact absurd hx (by decide)
  | cons y ys =>
    rw [renderNatObj] at hx
    simp only [List.mem_append, List.mem_cons, List.not_mem_nil, or_false,
               List.mem_flatMap] at hx
    rcases hx with ((h | h) | ⟨p, -, hp⟩) | h
    · exact absurd h (by decide)
    · exact renderNatField_no_newline y.1 y.2 _ h rfl
    · rcases hp with h | h
      · exact absurd h (by decide)
      · exact renderNatField_no_newline p.1 p.2 _ h rfl
    · exact absurd h (by decide)

/-- Rendered member values contain no newline. -/
theorem renderFVal_no_newline (v : FVal) : ∀ x ∈ renderFVal v, x ≠ '\n' := by
  intro x hx
  cases v with
  | fnum n => exact natRender_no_newline n x hx
  | fstr s => exact renderStr_no_newline s.data x hx
  | farr l => exact renderArr_no_newline l x hx
  | fobj l => exact renderNatObj_no_newline l x hx

/-- Rendered `"key":value` members contain no newline. -/
theorem renderField_no_newline (k : String) (v : FVal) :
    ∀ x ∈ renderField k v, x ≠ '\n' := by
  intro x hx he
  subst he
  rw [renderField] at hx
  simp only [List.mem_append, List.mem_cons] at hx
  rcases hx with h | h | h
  · exact renderStr_no_newline k.data _ h rfl
  · exact absurd h (by decide)
  · exact renderFVal_no_newline v _ h rfl

/-- Rendered payload objects contain no newline. -/
theorem renderFields_no_newline (l : List (String × FVal)) :
    ∀ x ∈ renderFields l, x ≠ '\n' := by
  intro x hx he
  subst he
  cases l with
  | nil => exact absurd hx (by decide)
  | cons y ys =>
    rw [renderFields] at hx
    simp only [List.mem_append, List.mem_cons, List.not_mem_nil, or_false,
               List.mem_flatMap] at hx
    rcases hx with ((h | h) | ⟨p, -, hp⟩) | h
    · exact absurd h (by decide)
    · exact renderField_no_newline y.1 y.2 _ h rfl
    · rcases hp with h | h
      · exact absurd h (by decide)
      · exact renderField_no_newline p.1 p.2 _ h rfl
    · exact absurd h (by decide)

/-- The encoded wire form of a `Message` is a single line: it contains no
newline character. -/
theorem to_json_no_newline (m : Message) : ∀ x ∈ (Message.to_json m).data, x ≠ '\n' := by
  intro x hx he
  subst he
  rw [Message.to_json] at hx
  simp only [List.mem_append, List.mem_cons, List.not_mem_nil, or_false] at hx
  rcases hx with ((h | h) | (h | h)) | h
  · exact absurd h (by decide)
  · exact renderStr_no_newline m.tag.data _ h rfl
  · exact absurd h (by decide)
  · exact renderFields_no_newline m.fields _ h rfl
  · exact absurd h (by decide)

/-- C4: for every constructible envelope, decoding the encoded form returns
it unchanged field for field (including the byte-exact `File` payload), and
the encoded form contains no newline character. -/
theorem envelope_roundtrip_newline_free : ∀ m : Message,
    Message.from_json (Message.to_json m) = some m ∧
    (Message.to_json m).data.all (fun c => c != '\n') = true := by
  intro m
  refine ⟨to_json_from_json m, ?_⟩
  rw [List.all_eq_true]
  intro c hc
  simpa using to_json_no_newline m c hc

/-! ### Registry lemmas -/

/-- Looking up the id just inserted finds the new info. -/
theorem lookupClient_insertClient_self (m : List (Nat × ClientInfo)) (id : Nat)
    (info : ClientInfo) : lookupClient (insertClient m id info) id = some info := by
  induction m with
  | nil => simp [insertClient, lookupClient]
  | cons p t ih =>
    by_cases h : p.1 = id
    · simp [insertClient, h, lookupClient]
    · simpa [insertClient, h, lookupClient, List.find?_cons, h] using ih

/-- Inserting does not disturb other keys. -/
theorem lookupClient_insertClient_other (m : List (Nat × ClientInfo)) (id k : Nat)
    (info : ClientInfo) (hk : k ≠ id) :
    lookupClient (insertClient m id info) k = lookupClient m k := by
  have hik : (id == k) = false := by simp; omega
  induction m with
  | nil => simp [insertClient, lookupClient, List.find?, hik]
  | cons p t ih =>
    by_cases h : p.1 = id
    · subst h
      simp [insertClient, lookupClient, List.find?_cons, hik]
    · have hins : insertClient (p :: t) id info = p :: insertClient t id info := by
        simp [insertClient, h]
      rw [hins]
      by_cases hpk : p.1 = k
      · simp [lookupClient, List.find?_cons, hpk]
      · have hpkf : (p.1 == k) = false := by simp [hpk]
        simpa [lookupClient, List.find?_cons, hpkf] using ih

/-- C7: `unregister` (the `HashMap::remove` at server.rs lines 94-95) is
idempotent — removing an id twice leaves the registry exactly as removing it
once — and removing an id that is not present is a no-op, not an error. -/
theorem unregister_idempotent_noop : ∀ (m : List (Nat × ClientInfo)) (id : Nat),
    removeClient (removeClient m id) id = removeClient m id ∧
    ((∀ p ∈ m, p.1 ≠ id) → removeClient m id = m) := by
  intro m id
  constructor
  · simp [removeClient, List.filter_filter]
  · intro h
    simp only [removeClient]
    rw [List.filter_eq_self]
    intro a ha
    simpa using h a ha

/-- Witness for C7 at a concrete registry and id. -/
theorem unregister_idempotent_noop_witness :
    removeClient (removeClient [(2, ⟨"a", 0⟩)] 7) 7 = removeClient [(2, ⟨"a", 0⟩)] 7 ∧
    removeClient [(2, (⟨"a", 0⟩ : ClientInfo))] 7 = [(2, ⟨"a", 0⟩)] :=
  ⟨(unregister_idempotent_noop [(2, ⟨"a", 0⟩)] 7).1,
   (unregister_idempotent_noop [(2, ⟨"a", 0⟩)] 7).2 (by decide)⟩

/-- C8 counterexample: registering an id already in the registry silently
replaces the stored session data — the old entry is gone and no fault is
surfaced (`HashMap::insert` returns the old value, which line 58 discards). -/
theorem register_silent_overwrite_cex :
    insertClient [(0, ⟨"a", 1⟩)] 0 ⟨"b", 2⟩ = [(0, ⟨"b", 2⟩)] ∧
    lookupClient (insertClient [(0, ⟨"a", 1⟩)] 0 ⟨"b", 2⟩) 0 ≠ some ⟨"a", 1⟩ := by
  decide

/-- C8 amended: `register` has `HashMap::insert` semantics — registering an
id maps it to the new session data, silently overwriting any existing entry,
and leaves every other key unchanged; no `RegistryViolation`-style fault
exists in the code. -/
theorem register_overwrite_semantics : ∀ (m : List (Nat × ClientInfo)) (id : Nat)
    (info : ClientInfo),
    lookupClient (insertClient m id info) id = some info ∧
    ∀ k, k ≠ id → lookupClient (insertClient m id info) k = lookupClient m k := by
  intro m id info
  exact ⟨lookupClient_insertClient_self m id info,
         fun k hk => lookupClient_insertClient_other m id k info hk⟩

/-- Witness for C8's amended statement at a concrete registry. -/
theorem register_overwrite_semantics_witness :
    lookupClient (insertClient [(0, ⟨"a", 1⟩)] 0 ⟨"b", 2⟩) 0 = some ⟨"b", 2⟩ ∧
    lookupClient (insertClient [(0, (⟨"a", 1⟩ : ClientInfo))] 0 ⟨"b", 2⟩) 5 =
      lookupClient [(0, ⟨"a", 1⟩)] 5 :=
  ⟨(register_overwrite_semantics [(0, ⟨"a", 1⟩)] 0 ⟨"b", 2⟩).1,
   (register_overwrite_semantics [(0, ⟨"a", 1⟩)] 0 ⟨"b", 2⟩).2 5 (by decide)⟩

/-! ### Echo-suppression filter -/

/-- C3: the outbound forwarding filter skips an envelope exactly when it is a
`Text` whose author equals this session's username; every other variant
(`File`, `UserJoined`, `UserLeft`, `System`) is forwarded — including to the
session whose username equals the author. -/
theorem text_echo_filter_iff : ∀ (u : String) (m : Message),
    shouldSend u m = false ↔ ∃ c t, m = Message.Text u c t := by
  intro u m
  cases m with
  | Text mu c t =>
    simp only [shouldSend, bne_eq_false_iff_eq, Message.Text.injEq]
    constructor
    · intro h
      exact ⟨c, t, h, rfl, rfl⟩
    · rintro ⟨c2, t2, h, -, -⟩
      exact h
  | File u2 f sz d t => simp [shouldSend]
  | UserJoined u2 t => simp [shouldSend]
  | UserLeft u2 t => simp [shouldSend]
  | System c t => simp [shouldSend]

/-- C2 counterexample: with two connections both named "carol", a `Text`
published on behalf of the first is filtered out by the second connection's
outbound loop as well — the second "carol" session's queue stays empty, so
the envelope is NOT delivered to the second connection. -/
theorem echo_suppression_by_username_cex :
    outboundLoop "carol" [BusEvent.item ((Message.Text "carol" "hi" ⟨1, 2⟩).to_json)] = [] := by
  decide

/-- C2 amended: two connections with the same username still receive
distinct internal ids and separate registry entries, but echo suppression is
keyed by username, not by connection identity: a `Text` authored under a
username is suppressed for every session carrying that username, the second
duplicate included. -/
theorem duplicate_usernames_distinct_ids_suppressed_both :
    ∀ (i j : Nat) (inf1 inf2 : ClientInfo) (b : String) (t : SystemTime), i ≠ j →
    (lookupClient (insertClient (insertClient [] i inf1) j inf2) i = some inf1 ∧
     lookupClient (insertClient (insertClient [] i inf1) j inf2) j = some inf2) ∧
    ∀ u : String, shouldSend u (Message.Text u b t) = false := by
  intro i j inf1 inf2 b t hij
  refine ⟨⟨?_, ?_⟩, ?_⟩
  · rw [lookupClient_insertClient_other _ j i inf2 hij]
    exact lookupClient_insertClient_self [] i inf1
  · exact lookupClient_insertClient_self _ j inf2
  · intro u
    simp [shouldSend]

/-- Witness for C2's amended statement: the two "carol" connections. -/
theorem duplicate_usernames_witness :
    (lookupClient (insertClient (insertClient [] 0 ⟨"carol", 3⟩) 1 ⟨"carol", 4⟩) 0 =
       some ⟨"carol", 3⟩ ∧
     lookupClient (insertClient (insertClient [] 0 ⟨"carol", 3⟩) 1 ⟨"carol", 4⟩) 1 =
       some ⟨"carol", 4⟩) ∧
    shouldSend "carol" (Message.Text "carol" "hi" ⟨1, 2⟩) = false :=
  have h := duplicate_usernames_distinct_ids_suppressed_both 0 1 ⟨"carol", 3⟩ ⟨"carol", 4⟩
    "hi" ⟨1, 2⟩ (by decide)
  ⟨h.1, h.2 "carol"⟩

/-! ### Reader-loop lemmas -/

/-- The reader loop's published list is some prefix with no `UserLeft`
followed by exactly one final `UserLeft` for this session. -/
theorem readerLoop_split (u : String) (lines : List String) (clk : Nat → SystemTime)
    (k : Nat) :
    ∃ pre t, readerLoop u lines clk k = pre ++ [Message.UserLeft u t] ∧
      pre.countP isUserLeftB = 0 := by
  induction lines generalizing k with
  | nil =>
    exact ⟨[], clk k, rfl, rfl⟩
  | cons l rest ih =>
    by_cases h : (rustTrim l).isEmpty
    · obtain ⟨pre, t, heq, hc⟩ := ih k
      exact ⟨pre, t, by simp [readerLoop, h, heq], hc⟩
    · obtain ⟨pre, t, heq, hc⟩ := ih (k + 1)
      refine ⟨Message.new_text u (rustTrim l) (clk k) :: pre, t, ?_, ?_⟩
      · simp [readerLoop, h, heq]
      · simp [List.countP_cons, hc, isUserLeftB, Message.new_text]

/-- The reader loop publishes `UserLeft` exactly once. -/
theorem readerLoop_userLeft_count (u : String) (lines : List String)
    (clk : Nat → SystemTime) (k : Nat) :
    (readerLoop u lines clk k).countP isUserLeftB = 1 := by
  obtain ⟨pre, t, heq, hc⟩ := readerLoop_split u lines clk k
  simp [heq, List.countP_append, hc, isUserLeftB]

/-- The `Text` bodies the reader loop publishes are exactly the nonempty
trims of the raw input lines, in order. -/
theorem readerLoop_textBodies (u : String) (lines : List String)
    (clk : Nat → SystemTime) (k : Nat) :
    (readerLoop u lines clk k).filterMap textBody
      = lines.filterMap (fun l => if (rustTrim l).isEmpty then none else some (rustTrim l)) := by
  induction lines generalizing k with
  | nil => simp [readerLoop, textBody, Message.new_user_left]
  | cons l rest ih =>
    by_cases h : (rustTrim l).isEmpty
    · simp [readerLoop, h, ih]
    · simp [readerLoop, h, ih, textBody, Message.new_text]

/-- Every `Text` the reader loop publishes is authored by this session's
username and has a nonempty body. -/
theorem readerLoop_text_shape (u : String) (lines : List String)
    (clk : Nat → SystemTime) (k : Nat) :
    ∀ m ∈ readerLoop u lines clk k, ∀ a b t, m = Message.Text a b t →
      a = u ∧ b.isEmpty = false := by
  induction lines generalizing k with
  | nil =>
    intro m hm a b t hmt
    simp [readerLoop, Message.new_user_left] at hm
    simp [hm] at hmt
  | cons l rest ih =>
    intro m hm a b t hmt
    by_cases h : (rustTrim l).isEmpty
    · simp only [readerLoop, h, if_pos] at hm
      exact ih k m hm a b t hmt
    · simp only [readerLoop, h, if_neg, Bool.not_eq_true, List.mem_cons] at hm
      rcases hm with hm | hm
      · rw [hm] at hmt
        simp only [Message.new_text, Message.Text.injEq] at hmt
        refine ⟨hmt.1.symm, ?_⟩
        rw [← hmt.2.1]
        simpa using h
      · exact ih (k + 1) m hm a b t hmt

/-- C10: each line the server's inbound loop reads is trimmed before being
wrapped as a `Text` envelope, and a line whose trim is empty produces no
envelope at all; the published `Text` bodies are exactly the nonempty trims
in input order, each authored by the session's username. -/
theorem inbound_trim_and_drop : ∀ (u : String) (lines : List String)
    (clk : Nat → SystemTime),
    (readerLoop u lines clk 0).filterMap textBody
      = lines.filterMap (fun l => if (rustTrim l).isEmpty then none else some (rustTrim l)) ∧
    ∀ m ∈ readerLoop u lines clk 0, ∀ a b t, m = Message.Text a b t →
      a = u ∧ b.isEmpty = false := by
  intro u lines clk
  exact ⟨readerLoop_textBodies u lines clk 0, readerLoop_text_shape u lines clk 0⟩

/-- Witness for C10 on concrete lines: " hi " is trimmed to "hi", the blank
line is dropped, and the published `Text` is authored by "alice". -/
theorem inbound_trim_and_drop_witness :
    (readerLoop "alice" [" hi ", "   ", "x"] (fun _ => ⟨0, 0⟩) 0).filterMap textBody
      = [" hi ", "   ", "x"].filterMap
          (fun l => if (rustTrim l).isEmpty then none else some (rustTrim l)) ∧
    "alice" = "alice" ∧ ("hi" : String).isEmpty = false :=
  have h := inbound_trim_and_drop "alice" [" hi ", "   ", "x"] (fun _ => ⟨0, 0⟩)
  ⟨h.1, h.2 (Message.Text "alice" "hi" ⟨0, 0⟩) (by decide) "alice" "hi" ⟨0, 0⟩ rfl⟩

/-- C5 counterexample: when the outbound loop is the one that ends (here via
a lag fault), it publishes no `UserLeft` and removes nothing from the
registry — the cleanup count for that loop ending is zero, not one. -/
theorem outbound_exit_no_cleanup_cex :
    outboundLoop "bob" [BusEvent.lagged] = [] ∧
    (outboundTask "bob" [BusEvent.lagged]).publishedOnExit.countP isUserLeftB = 0 ∧
    (outboundTask "bob" [BusEvent.lagged]).removedIds = [] := by
  decide

/-- C5 amended: cleanup is tied to the inbound read loop only — when it ends
(EOF, or a read error folded into EOF by `unwrap_or(0)`), exactly one
`UserLeft` for the session is published, as the final publish, and the
session is removed from the registry once; the outbound loop's exit paths
publish nothing and remove nothing. -/
theorem reader_exit_cleanup_once : ∀ (u : String) (lines : List String)
    (clk : Nat → SystemTime) (reg : List (Nat × ClientInfo)) (id : Nat)
    (evs : List BusEvent),
    (readerTask u lines clk reg id).1.countP isUserLeftB = 1 ∧
    (∃ pre t, (readerTask u lines clk reg id).1 = pre ++ [Message.UserLeft u t] ∧
       pre.countP isUserLeftB = 0) ∧
    (readerTask u lines clk reg id).2 = removeClient reg id ∧
    (outboundTask u evs).publishedOnExit = [] ∧
    (outboundTask u evs).removedIds = [] := by
  intro u lines clk reg id evs
  exact ⟨readerLoop_userLeft_count u lines clk 0, readerLoop_split u lines clk 0,
         rfl, rfl, rfl⟩

/-- C1: evaluation of the code at the failing input.  Subscriber "bob"
receives one published envelope, `Text` authored by "alice": the broadcast
branch does forward its line to bob's per-client queue (second conjunct),
but the queue's consumer branch is an empty body and the socket was moved
into the reader task, so the only line ever written to bob's socket is the
pre-loop welcome — the published envelope never reaches the socket. -/
theorem server_never_writes_broadcasts : ∀ w : String,
    sessionSocketWrites w "bob"
        [BusEvent.item ((Message.Text "alice" "hello" ⟨5, 7⟩).to_json)] = [w ++ "\n"] ∧
    outboundLoop "bob" [BusEvent.item ((Message.Text "alice" "hello" ⟨5, 7⟩).to_json)]
      = [(Message.Text "alice" "hello" ⟨5, 7⟩).to_json] := by
  intro w
  have h2 : outboundLoop "bob" [BusEvent.item ((Message.Text "alice" "hello" ⟨5, 7⟩).to_json)]
      = [(Message.Text "alice" "hello" ⟨5, 7⟩).to_json] := by decide
  refine ⟨?_, h2⟩
  simp [sessionSocketWrites, rxConsumerWrites, h2]

/-- C6 counterexample: a wire line whose `size` field is 5 but whose `data`
has length 1 decodes successfully (`from_json` performs no consistency
check), producing a `File` envelope violating `byte_length = len(bytes)`. -/
theorem decoded_file_size_mismatch_cex :
    Message.from_json "\x7b\"File\":\x7b\"username\":\"a\",\"filename\":\"f\",\"size\":5,\"data\":[1],\"timestamp\":\x7b\"secs_since_epoch\":0,\"nanos_since_epoch\":0\x7d\x7d\x7d"
      = some (Message.File "a" "f" 5 [1] ⟨0, 0⟩) ∧
    fileSizeOk (Message.File "a" "f" 5 [1] ⟨0, 0⟩) = false := by
  decide

/-- C6 amended: every envelope built by the `Message` constructors satisfies
the size invariant — in particular `new_file` sets `size` to `data.len()` —
but envelopes obtained by decoding a wire line are not validated and may
violate it. -/
theorem constructors_file_size_inv : ∀ (u f c : String) (d : List Nat) (ts : SystemTime),
    fileSizeOk (Message.new_file u f d ts) = true ∧
    fileSizeOk (Message.new_text u c ts) = true ∧
    fileSizeOk (Message.new_user_joined u ts) = true ∧
    fileSizeOk (Message.new_user_left u ts) = true ∧
    fileSizeOk (Message.new_system c ts) = true := by
  intro u f c d ts
  simp [fileSizeOk, Message.new_file, Message.new_text, Message.new_user_joined,
        Message.new_user_left, Message.new_system]

/-! ### Client outbound path -/

/-- The client writer task writes every queued item verbatim, newline
terminated. -/
theorem clientOutboundWrites_eq_map (items : List String) :
    clientOutboundWrites items = items.map (fun t => t ++ "\n") := by
  induction items with
  | nil => rfl
  | cons x xs ih => simp [clientOutboundWrites, ih]

/-- C9 counterexample: a submitted text line is written to the socket as the
raw line itself, which is not the encoding of any envelope — decoding it
fails — so no `Text` envelope with the client's username is written. -/
theorem client_sends_raw_text_cex :
    clientOutboundWrites ["hello"] = ["hello\n"] ∧ Message.from_json "hello" = none := by
  decide

/-- C9 amended: the client's outbound task writes each submitted item to the
socket as a raw newline-terminated line, not wrapped in an envelope; a
`/file` submission is enqueued as the single line `"FILE:" + json` where the
JSON is a `File` envelope whose author is the client's own username (via the
spec-modelled `read_file_with_username`) and whose size is the byte count. -/
theorem client_outbound_raw_lines : ∀ (items : List String) (u f : String)
    (d : List Nat) (ts : SystemTime),
    clientOutboundWrites items = items.map (fun t => t ++ "\n") ∧
    handle_file_command u f d ts = "FILE:" ++ (Message.File u f d.length d ts).to_json := by
  intro items u f d ts
  exact ⟨clientOutboundWrites_eq_map items, rfl⟩

end TerminalChat
